import Mathlib

/-!
Verification of the batch media/document converter (`src/modules/App.tsx`).

The embedding is shallow: JavaScript strings are Lean `String`s (compared code
point by code point through their `data` lists), blobs and byte buffers are
`List Nat`, and the opaque codec backends (canvas re-encode, heic2any, ffmpeg,
pdf-lib) are fields of an `Engine` record of deterministic functions, so that
every deterministic decision made by the converter itself (dispatch, flag
construction, naming, state transitions, progress arithmetic) is modelled
exactly.  `Math.round` on the progress percentage is modelled as exact rational
round-half-up arithmetic.  React state publication (`setItems`/`setProgress`)
is modelled by returning the final item list together with the ordered trace of
published progress values.
-/

/-- JS `String.prototype.toLowerCase`, modelled per code point. -/
def strToLower (s : String) : String := ⟨s.data.map Char.toLower⟩

/-- JS `String.prototype.startsWith`. -/
def strStartsWith (s p : String) : Bool := p.data.isPrefixOf s.data

/-- JS `String.prototype.endsWith`. -/
def strEndsWith (s p : String) : Bool := p.data.isSuffixOf s.data

/-- JS `String.prototype.lastIndexOf` for a single character, on the
code-point list of the string: index of the last occurrence, if any. -/
def lastIndexOf : List Char → Char → Option Nat
  | [], _ => none
  | a :: as, c =>
    match lastIndexOf as c with
    | some i => some (i + 1)
    | none => if a = c then some 0 else none

/-- `replaceExt` from App.tsx, line 33:
`const i=name.lastIndexOf("."); return (i>=0?name.slice(0,i):name)+ext`. -/
def replaceExt (name ext : List Char) : List Char :=
  match lastIndexOf name '.' with
  | some i => name.take i ++ ext
  | none => name ++ ext

/-- `replaceExt` packaged on `String`s, as used by `downloadZip`. -/
def replaceExtS (name ext : String) : String := ⟨replaceExt name.data ext.data⟩

/-- `ItemStatus` from App.tsx: `"pending" | "converting" | "done" | "error"`. -/
inductive ItemStatus
  | pending
  | converting
  | done
  | error
deriving DecidableEq

/-- `AudioMode` from App.tsx: `'CBR'|'VBR'`. -/
inductive AudioMode
  | CBR
  | VBR
deriving DecidableEq

/-- `AudioOpts` from App.tsx (the 1|2 channel type is widened to `Nat`). -/
structure AudioOpts where
  mode : AudioMode
  kbps : Nat
  vbrq : Nat
  rate : Nat
  ch : Nat
deriving DecidableEq

/-- `ImageOpts` from App.tsx. -/
structure ImageOpts where
  q : Nat
deriving DecidableEq

/-- `VideoOpts` from App.tsx. -/
structure VideoOpts where
  crf : Nat
deriving DecidableEq

/-- The PDF action from App.tsx: `'none'|'split'`. -/
inductive PdfAction
  | noAction
  | split
deriving DecidableEq

/-- `PdfOpts` from App.tsx. -/
structure PdfOpts where
  action : PdfAction
deriving DecidableEq

/-- The browser `File` boundary object: name, declared media type, the
optional `webkitRelativePath` (empty string when absent, as in the DOM), and
the bytes returned by `arrayBuffer()`. -/
structure MFile where
  name : String
  type : String
  relPath : String := ""
  bytes : List Nat := []
deriving DecidableEq

/-- `QItem` from App.tsx. -/
structure QItem where
  id : Nat
  selected : Bool
  file : MFile
  target : String
  status : ItemStatus
  outBlob : Option (List Nat) := none
  error : Option String := none
  audio : AudioOpts
  image : ImageOpts
  video : VideoOpts
  pdf : PdfOpts
deriving DecidableEq

/-- `IMAGE_TARGETS` from App.tsx. -/
def IMAGE_TARGETS : List String := ["image/jpeg", "image/png", "image/webp"]

/-- `AUDIO_TARGETS` from App.tsx. -/
def AUDIO_TARGETS : List String :=
  ["audio/mpeg", "audio/aac", "audio/ogg", "audio/opus", "audio/wav"]

/-- `VIDEO_TARGETS` from App.tsx. -/
def VIDEO_TARGETS : List String := ["video/webm"]

/-- `isHeic` from App.tsx, line 29. -/
def isHeic (f : MFile) : Bool :=
  let n := strToLower f.name
  f.type = "image/heic" || f.type = "image/heif" ||
    strEndsWith n ".heic" || strEndsWith n ".heif"

/-- The audio extension test `/\.(mp3|aac|m4a|wav|ogg|opus|flac)$/i` applied
to an already lowercased name. -/
def hasAudioExt (n : String) : Bool :=
  strEndsWith n ".mp3" || strEndsWith n ".aac" || strEndsWith n ".m4a" ||
    strEndsWith n ".wav" || strEndsWith n ".ogg" || strEndsWith n ".opus" ||
    strEndsWith n ".flac"

/-- The video extension test `/\.(mp4|mov|mkv|webm)$/i` applied to an already
lowercased name. -/
def hasVideoExt (n : String) : Bool :=
  strEndsWith n ".mp4" || strEndsWith n ".mov" || strEndsWith n ".mkv" ||
    strEndsWith n ".webm"

/-- `isAudio` from App.tsx, line 30. -/
def isAudio (f : MFile) : Bool :=
  strStartsWith f.type "audio/" || hasAudioExt (strToLower f.name)

/-- `isVideo` from App.tsx, line 31. -/
def isVideo (f : MFile) : Bool :=
  strStartsWith f.type "video/" || hasVideoExt (strToLower f.name)

/-- `isPDF` from App.tsx, line 32. -/
def isPDF (f : MFile) : Bool :=
  f.type = "application/pdf" || strEndsWith (strToLower f.name) ".pdf"

/-- The `.heic`/`.heif` filename test opening `inferTargets`. -/
def heicName (n : String) : Bool :=
  strEndsWith n ".heic" || strEndsWith n ".heif"

/-- `inferTargets` from App.tsx, lines 35-43. -/
def inferTargets (type : String) (name : String) : List String :=
  let n := strToLower name
  if heicName n then ["image/jpeg"]
  else if strStartsWith type "image/" then IMAGE_TARGETS
  else if strStartsWith type "audio/" || hasAudioExt n then AUDIO_TARGETS
  else if strStartsWith type "video/" || hasVideoExt n then VIDEO_TARGETS
  else if type = "application/pdf" || strEndsWith n ".pdf" then ["application/pdf"]
  else []

/-- The opaque codec backends.  Each field is the deterministic behaviour of
one external engine call chain: `heic2any`, canvas decode+`toBlob`, the shared
ffmpeg instance (`writeFile`/`exec`/`readFile` collapsed into one call taking
the input file, the argument vector and the output scratch name), and the
random scratch-name suffix generator.  `Except.error` means the JS call chain
threw, carrying the thrown message. -/
structure Engine where
  heicToJpeg : MFile → Except String (List Nat)
  imageEncode : MFile → String → Nat → Except String (List Nat)
  audioExec : MFile → List String → String → Except String (List Nat)
  videoExec : MFile → List String → String → Except String (List Nat)
  scratch : MFile → String

/-- `convertImage` from App.tsx, lines 52-60: the quality clamp
`Math.min(100, Math.max(1, qPercent))` is the converter's own arithmetic; the
decode/draw/`toBlob` chain (including the `/100` rescale) is the opaque
`imageEncode` engine call. -/
def convertImage (eng : Engine) (f : MFile) (target : String) (qPercent : Nat) :
    Except String (List Nat) :=
  eng.imageEncode f target (min 100 (max 1 qPercent))

/-- The deterministic part of `convertAudio` from App.tsx, lines 62-76: choice
of the output scratch name and of the ffmpeg argument vector, or the thrown
`"Unsupported audio target"`.  `inName` is the `"in_" + random` scratch name. -/
def audioArgs (inName : String) (target : String) (opts : AudioOpts) :
    Except String (String × List String) :=
  let base := ["-i", inName, "-ar", Nat.repr opts.rate, "-ac", Nat.repr opts.ch]
  if target = "audio/mpeg" then
    if opts.mode = AudioMode.VBR then
      Except.ok ("out.mp3",
        base ++ ["-c:a", "libmp3lame", "-q:a", Nat.repr opts.vbrq, "out.mp3"])
    else
      Except.ok ("out.mp3",
        base ++ ["-c:a", "libmp3lame", "-b:a", Nat.repr opts.kbps ++ "k", "out.mp3"])
  else if target = "audio/aac" then
    Except.ok ("out.m4a",
      base ++ ["-c:a", "aac", "-b:a", Nat.repr opts.kbps ++ "k", "-f", "mp4",
        "-movflags", "+faststart", "out.m4a"])
  else if target = "audio/ogg" ∨ target = "audio/opus" then
    let out := if target = "audio/opus" then "out.opus" else "out.ogg"
    Except.ok (out, base ++ ["-c:a", "libopus", "-b:a", Nat.repr opts.kbps ++ "k", out])
  else if target = "audio/wav" then
    Except.ok ("out.wav", base ++ ["-c:a", "pcm_s16le", "out.wav"])
  else Except.error "Unsupported audio target"

/-- `convertAudio` from App.tsx, lines 62-76.  The best-effort `unlink`
cleanup is swallowed by the source and has no effect on the returned blob. -/
def convertAudio (eng : Engine) (f : MFile) (target : String) (opts : AudioOpts) :
    Except String (List Nat) :=
  let inName := "in_" ++ eng.scratch f
  match audioArgs inName target opts with
  | Except.error e => Except.error e
  | Except.ok (out, args) => eng.audioExec f args out

/-- `convertVideoToWebM` from App.tsx, lines 78-87. -/
def convertVideoToWebM (eng : Engine) (f : MFile) (crf : Nat) :
    Except String (List Nat) :=
  let inName := "v_in_" ++ eng.scratch f
  eng.videoExec f
    ["-i", inName, "-c:v", "libvpx-vp9", "-b:v", "0", "-crf", Nat.repr crf,
      "-c:a", "libopus", "v_out.webm"]
    "v_out.webm"

/-- The body of the per-item `try`/`catch` block of `convertAll`
(App.tsx, lines 121-146): dispatch by file kind, attach the output blob and
move to `done`, or record the thrown message and move to `error`. -/
def convertItem (eng : Engine) (it : QItem) : QItem :=
  if isPDF it.file then
    if it.pdf.action = PdfAction.split then { it with status := ItemStatus.done }
    else { it with outBlob := some it.file.bytes, status := ItemStatus.done }
  else if isHeic it.file then
    match eng.heicToJpeg it.file with
    | Except.ok out =>
        { it with target := "image/jpeg", outBlob := some out,
                  status := ItemStatus.done }
    | Except.error e =>
        { it with status := ItemStatus.error, error := some e }
  else if strStartsWith it.file.type "image/" then
    match convertImage eng it.file it.target it.image.q with
    | Except.ok out => { it with outBlob := some out, status := ItemStatus.done }
    | Except.error e => { it with status := ItemStatus.error, error := some e }
  else if isAudio it.file then
    match convertAudio eng it.file it.target it.audio with
    | Except.ok out => { it with outBlob := some out, status := ItemStatus.done }
    | Except.error e => { it with status := ItemStatus.error, error := some e }
  else if isVideo it.file then
    match convertVideoToWebM eng it.file it.video.crf with
    | Except.ok out =>
        { it with target := "video/webm", outBlob := some out,
                  status := ItemStatus.done }
    | Except.error e => { it with status := ItemStatus.error, error := some e }
  else { it with status := ItemStatus.error, error := some "Unsupported type" }

/-- One whole per-item pass of the `convertAll` loop as it acts on the stored
item: set `converting`, then run the `try`/`catch` body. -/
def processed (eng : Engine) (n : QItem) : QItem :=
  convertItem eng { n with status := ItemStatus.converting }

/-- The item constructor inside `addFiles` (App.tsx, lines 98-102).  The
random string id is abstracted into a caller-supplied `Nat` id; the default
target is `inferTargets(f.type, f.name)[0] || "image/webp"`. -/
def mkItem (id : Nat) (f : MFile) : QItem :=
  { id := id, selected := true, file := f,
    target := (inferTargets f.type f.name).headD "image/webp",
    status := ItemStatus.pending,
    image := { q := 90 },
    audio := { mode := AudioMode.CBR, kbps := 192, vbrq := 2, rate := 44100, ch := 2 },
    video := { crf := 33 },
    pdf := { action := PdfAction.noAction } }

/-- The indexed `list.map((f, idx) => ...)` of `addFiles`. -/
def addFilesGo (mkId : Nat → Nat) (idx : Nat) : List MFile → List QItem
  | [] => []
  | f :: fs => mkItem (mkId idx) f :: addFilesGo mkId (idx + 1) fs

/-- `addFiles` from App.tsx, lines 96-104: the list of freshly enqueued items
(the caller appends it to the existing queue).  `mkId` abstracts the
`Date.now()`/`Math.random()` id generator, applied to the map index. -/
def addFiles (mkId : Nat → Nat) (files : List MFile) : List QItem :=
  addFilesGo mkId 0 files

/-- `Math.round(done / total * 100)` on exact rationals:
round-half-up of `100 * done / total`, as natural-number arithmetic. -/
def jsRoundPct (done total : Nat) : Nat := (200 * done + total) / (2 * total)

/-- `next.findIndex(n => n.id === it.id)` followed by the in-place mutation of
the found element: replace the first stored item carrying `tid` by its
processed state.  (In the source the index is always found, because the work
list is a filter of `next`; an absent id leaves the list unchanged here.) -/
def stepById (eng : Engine) : List QItem → Nat → List QItem
  | [], _ => []
  | n :: rest, tid =>
    if n.id = tid then processed eng n :: rest
    else n :: stepById eng rest tid

/-- The `for` loop of `convertAll` (App.tsx, lines 117-148) over the snapshot
work list: returns the final item list and the ordered trace of progress
values published after each item completes. -/
def convertAllLoop (eng : Engine) :
    List QItem → List QItem → Nat → Nat → List QItem × List Nat
  | next, [], _, _ => (next, [])
  | next, it :: rest, done, total =>
    let next2 := stepById eng next it.id
    let r := convertAllLoop eng next2 rest (done + 1) total
    (r.1, jsRoundPct (done + 1) total :: r.2)

/-- `convertAll` from App.tsx, lines 114-149: snapshot the selected items,
publish progress 0, then process the snapshot strictly in order.  Returns the
final item list and the full published progress trace (initial 0 included). -/
def convertAll (eng : Engine) (items : List QItem) : List QItem × List Nat :=
  let work := items.filter (fun i => i.selected)
  let r := convertAllLoop eng items work 0 work.length
  (r.1, 0 :: r.2)

/-- The extension mapping of `downloadZip` (App.tsx, lines 158-168); the
sequential `if` assignments are disjoint, so the chain is equivalent. -/
def extFor (t : String) : String :=
  if t = "image/jpeg" then ".jpg"
  else if t = "image/png" then ".png"
  else if t = "image/webp" then ".webp"
  else if t = "audio/mpeg" then ".mp3"
  else if t = "audio/aac" then ".m4a"
  else if t = "audio/ogg" then ".ogg"
  else if t = "audio/opus" then ".opus"
  else if t = "audio/wav" then ".wav"
  else if t = "video/webm" then ".webm"
  else if t = "application/pdf" then ".pdf"
  else ".bin"

/-- The archive entry name of a done item (App.tsx, lines 169-170):
`replaceExt(webkitRelativePath || name, ext)`. -/
def entryName (it : QItem) : String :=
  let rel := if it.file.relPath = "" then it.file.name else it.file.relPath
  replaceExtS rel (extFor it.target)

/-- The archive entry name of page `i` (0-based) of a split PDF
(App.tsx, line 181). -/
def pageEntryName (f : MFile) (i : Nat) : String :=
  replaceExtS f.name ("-page-" ++ Nat.repr (i + 1) ++ ".pdf")

/-- The sequence of `files[name] = buf` assignments one item contributes to
the archive record in `downloadZip` (App.tsx, lines 155-184), in source
order.  `pg` is the opaque pdf-lib page count of a file and `pb` its opaque
serialized single-page extraction. -/
def itemEntries (pg : MFile → Nat) (pb : MFile → Nat → List Nat) (it : QItem) :
    List (String × List Nat) :=
  if it.selected then
    (if it.status = ItemStatus.done ∧ it.outBlob.isSome then
      [(entryName it, it.outBlob.getD [])]
    else []) ++
    (if isPDF it.file ∧ it.pdf.action = PdfAction.split then
      (List.range (pg it.file)).map (fun i => (pageEntryName it.file i, pb it.file i))
    else [])
  else []

/-- All record assignments of one `downloadZip` run, in order. -/
def assignments (pg : MFile → Nat) (pb : MFile → Nat → List Nat)
    (items : List QItem) : List (String × List Nat) :=
  items.flatMap (itemEntries pg pb)

/-- One JS object assignment `m[k] = v`: overwrite the value in place if the
key exists (JS objects keep first-insertion key order), else append. -/
def recSet (m : List (String × List Nat)) (k : String) (v : List Nat) :
    List (String × List Nat) :=
  if k ∈ m.map Prod.fst then
    m.map (fun p => if p.1 = k then (p.1, v) else p)
  else m ++ [(k, v)]

/-- The final `files` record built by `downloadZip` (App.tsx, lines 153-185):
the fold of all assignments over the empty record. -/
def zipEntries (pg : MFile → Nat) (pb : MFile → Nat → List Nat)
    (items : List QItem) : List (String × List Nat) :=
  (assignments pg pb items).foldl (fun m p => recSet m p.1 p.2) []

/-- Default option blocks as seeded by `addFiles`, with a small sample rate to
keep concrete evaluations light. -/
def smallAudioOpts : AudioOpts :=
  { mode := AudioMode.CBR, kbps := 9, vbrq := 2, rate := 8, ch := 2 }

/-- Small VBR-mode audio options for concrete flag-vector checks. -/
def smallVbrOpts : AudioOpts :=
  { mode := AudioMode.VBR, kbps := 9, vbrq := 2, rate := 8, ch := 2 }

/-- A concrete engine whose audio backend always throws `"boom"` and whose
image backend throws `"boom"` exactly on the file named `"bad.png"`. -/
def cexEngine : Engine :=
  { heicToJpeg := fun _ => Except.ok [1],
    imageEncode := fun f _ _ =>
      if f.name = "bad.png" then Except.error "boom" else Except.ok [2],
    audioExec := fun _ _ _ => Except.error "boom",
    videoExec := fun _ _ _ => Except.ok [3],
    scratch := fun _ => "s" }

/-- A selected audio item already in the `done` state, as left by an earlier
successful run. -/
def cexDoneItem : QItem :=
  { id := 0, selected := true,
    file := { name := "x.mp3", type := "audio/mpeg" },
    target := "audio/mpeg", status := ItemStatus.done, outBlob := some [7],
    audio := smallAudioOpts, image := { q := 90 }, video := { crf := 33 },
    pdf := { action := PdfAction.noAction } }

/-- A selected, already converted image item whose archive name collides with
`cexItemB`. -/
def cexItemA : QItem :=
  { id := 0, selected := true,
    file := { name := "a.jpg", type := "image/jpeg" },
    target := "image/webp", status := ItemStatus.done, outBlob := some [1],
    audio := smallAudioOpts, image := { q := 90 }, video := { crf := 33 },
    pdf := { action := PdfAction.noAction } }

/-- A selected, already converted image item whose archive name collides with
`cexItemA`. -/
def cexItemB : QItem :=
  { id := 1, selected := true,
    file := { name := "a.png", type := "image/png" },
    target := "image/webp", status := ItemStatus.done, outBlob := some [2],
    audio := smallAudioOpts, image := { q := 90 }, video := { crf := 33 },
    pdf := { action := PdfAction.noAction } }

/-- A selected split-action PDF item that also carries a stored output blob
with status `done`, as left by a run in keep mode before the action was
switched to split. -/
def cexSplitDoneItem : QItem :=
  { id := 0, selected := true,
    file := { name := "doc.pdf", type := "application/pdf", bytes := [9] },
    target := "application/pdf", status := ItemStatus.done, outBlob := some [9],
    audio := smallAudioOpts, image := { q := 90 }, video := { crf := 33 },
    pdf := { action := PdfAction.split } }

/-- A selected, converted image item (`b.png` to WEBP) that does not collide
with `cexItemA`. -/
def witZipItemB : QItem :=
  { id := 1, selected := true,
    file := { name := "b.png", type := "image/png" },
    target := "image/webp", status := ItemStatus.done, outBlob := some [2],
    audio := smallAudioOpts, image := { q := 90 }, video := { crf := 33 },
    pdf := { action := PdfAction.noAction } }

/-- A good image item for witnesses. -/
def witImageItem : QItem :=
  { id := 0, selected := true,
    file := { name := "good.png", type := "image/png" },
    target := "image/webp", status := ItemStatus.pending,
    audio := smallAudioOpts, image := { q := 90 }, video := { crf := 33 },
    pdf := { action := PdfAction.noAction } }

/-- A failing image item for witnesses. -/
def witBadItem : QItem :=
  { id := 1, selected := true,
    file := { name := "bad.png", type := "image/png" },
    target := "image/webp", status := ItemStatus.pending,
    audio := smallAudioOpts, image := { q := 90 }, video := { crf := 33 },
    pdf := { action := PdfAction.noAction } }

/-- A pending split-action PDF item with no stored output. -/
def witSplitPendingItem : QItem :=
  { id := 2, selected := true,
    file := { name := "d.pdf", type := "application/pdf", bytes := [4] },
    target := "application/pdf", status := ItemStatus.pending,
    audio := smallAudioOpts, image := { q := 90 }, video := { crf := 33 },
    pdf := { action := PdfAction.split } }


theorem convertItem_id (eng : Engine) (it : QItem) :
    (convertItem eng it).id = it.id := by
  unfold convertItem
  repeat' split
  all_goals rfl

theorem convertItem_selected (eng : Engine) (it : QItem) :
    (convertItem eng it).selected = it.selected := by
  unfold convertItem
  repeat' split
  all_goals rfl

theorem processed_id (eng : Engine) (n : QItem) :
    (processed eng n).id = n.id := by
  unfold processed
  rw [convertItem_id]

theorem processed_selected (eng : Engine) (n : QItem) :
    (processed eng n).selected = n.selected := by
  unfold processed
  rw [convertItem_selected]

theorem stepById_map_id (eng : Engine) (l : List QItem) (tid : Nat) :
    (stepById eng l tid).map QItem.id = l.map QItem.id := by
  induction l with
  | nil => rfl
  | cons n rest ih =>
    simp only [stepById]
    split
    · simp [processed_id]
    · simp [ih]

theorem stepById_eq_map (eng : Engine) (l : List QItem) (tid : Nat)
    (h : (l.map QItem.id).Nodup) :
    stepById eng l tid =
      l.map (fun n => if n.id = tid then processed eng n else n) := by
  induction l with
  | nil => rfl
  | cons n rest ih =>
    simp only [List.map_cons, List.nodup_cons, List.mem_map] at h
    obtain ⟨h1, h2⟩ := h
    simp only [stepById, List.map_cons]
    by_cases h3 : n.id = tid
    · rw [if_pos h3, if_pos h3]
      congr 1
      have : ∀ m ∈ rest, (if m.id = tid then processed eng m else m) = m := by
        intro m hm
        rw [if_neg]
        intro hc
        exact h1 ⟨m, hm, by rw [hc, h3]⟩
      rw [List.map_congr_left this]
      simp
    · rw [if_neg h3, if_neg h3, ih h2]

theorem convertAllLoop_fst (eng : Engine) (ws : List QItem) :
    ∀ (next : List QItem) (d t : Nat),
      (next.map QItem.id).Nodup → (ws.map QItem.id).Nodup →
      (convertAllLoop eng next ws d t).1 =
        next.map (fun n => if n.id ∈ ws.map QItem.id then processed eng n else n) := by
  induction ws with
  | nil =>
    intro next d t _ _
    simp [convertAllLoop]
  | cons it rest ih =>
    intro next d t hN hW
    simp only [List.map_cons, List.nodup_cons, List.mem_map] at hW
    obtain ⟨hW1, hW2⟩ := hW
    simp only [convertAllLoop]
    have hN2 : ((stepById eng next it.id).map QItem.id).Nodup := by
      rw [stepById_map_id]; exact hN
    rw [ih (stepById eng next it.id) (d + 1) t hN2 hW2]
    rw [stepById_eq_map eng next it.id hN, List.map_map]
    have hnotin : it.id ∉ rest.map QItem.id := by
      simp only [List.mem_map]
      rintro ⟨a, ha, hai⟩
      exact hW1 ⟨a, ha, hai⟩
    apply List.map_congr_left
    intro n _
    simp only [Function.comp_apply, List.map_cons, List.mem_cons]
    by_cases hn : n.id = it.id
    · rw [if_pos hn, if_pos (Or.inl hn),
        if_neg (by rw [processed_id, hn]; exact hnotin)]
    · rw [if_neg hn]
      by_cases hm : n.id ∈ rest.map QItem.id
      · rw [if_pos hm, if_pos (Or.inr hm)]
      · rw [if_neg hm, if_neg (by rintro (h | h) <;> [exact hn h; exact hm h])]

theorem convertAllLoop_snd (eng : Engine) (ws : List QItem) :
    ∀ (next : List QItem) (d t : Nat),
      (convertAllLoop eng next ws d t).2 =
        (List.range ws.length).map (fun j => jsRoundPct (d + 1 + j) t) := by
  induction ws with
  | nil =>
    intro next d t
    simp [convertAllLoop]
  | cons it rest ih =>
    intro next d t
    simp only [convertAllLoop, List.length_cons]
    rw [ih (stepById eng next it.id) (d + 1) t, List.range_succ_eq_map,
      List.map_cons, List.map_map]
    congr 1
    apply List.map_congr_left
    intro j _
    have hj : d + 1 + Nat.succ j = d + 2 + j := by omega
    simp only [Function.comp_apply, hj]

theorem convertAll_fst (eng : Engine) (items : List QItem)
    (h : (items.map QItem.id).Nodup) :
    (convertAll eng items).1 =
      items.map (fun n => if n.selected then processed eng n else n) := by
  have hsub : ((items.filter (fun i => i.selected)).map QItem.id).Nodup :=
    ((List.filter_sublist items).map QItem.id).nodup h
  have hfst : (convertAll eng items).1 =
      (convertAllLoop eng items (items.filter (fun i => i.selected)) 0
        (items.filter (fun i => i.selected)).length).1 := rfl
  rw [hfst, convertAllLoop_fst eng _ items 0 _ h hsub]
  apply List.map_congr_left
  intro n hn
  by_cases hs : n.selected
  · rw [if_pos hs, if_pos]
    exact List.mem_map_of_mem QItem.id (List.mem_filter.mpr ⟨hn, hs⟩)
  · rw [if_neg hs, if_neg]
    intro hc
    obtain ⟨m, hm, hmid⟩ := List.mem_map.mp hc
    have hm2 := List.mem_filter.mp hm
    have : m = n := List.inj_on_of_nodup_map h (List.mem_of_mem_filter hm) hn hmid
    rw [this] at hm2
    exact hs hm2.2

theorem convertAll_snd (eng : Engine) (items : List QItem) :
    (convertAll eng items).2 =
      0 :: (List.range (items.filter (fun i => i.selected)).length).map
        (fun j => jsRoundPct (j + 1) ((items.filter (fun i => i.selected)).length)) := by
  have hsnd : (convertAll eng items).2 =
      0 :: (convertAllLoop eng items (items.filter (fun i => i.selected)) 0
        (items.filter (fun i => i.selected)).length).2 := rfl
  rw [hsnd, convertAllLoop_snd]
  congr 1
  apply List.map_congr_left
  intro j _
  congr 1
  omega

theorem jsRoundPct_mono (t : Nat) {d d' : Nat} (h : d ≤ d') :
    jsRoundPct d t ≤ jsRoundPct d' t := by
  unfold jsRoundPct
  exact Nat.div_le_div_right (by omega)

theorem jsRoundPct_total {n : Nat} (h : n ≠ 0) : jsRoundPct n n = 100 := by
  unfold jsRoundPct
  have h1 : 200 * n + n = n + 2 * n * 100 := by ring
  rw [h1, Nat.add_mul_div_left _ _ (by omega : 0 < 2 * n),
    Nat.div_eq_of_lt (by omega)]

theorem jsRoundPct_eq_round (d : Nat) {t : Nat} (h : t ≠ 0) :
    (jsRoundPct d t : ℤ) = round (((d : ℚ) / (t : ℚ)) * 100) := by
  rw [round_eq]
  have h2 : ((d : ℚ) / (t : ℚ)) * 100 + 1 / 2 =
      ((200 * d + t : ℕ) : ℚ) / ((2 * t : ℕ) : ℚ) := by
    have ht : (t : ℚ) ≠ 0 := Nat.cast_ne_zero.mpr h
    push_cast
    field_simp
    ring
  rw [h2, Rat.floor_natCast_div_natCast]
  rfl

theorem lastIndexOf_eq_none {l : List Char} {c : Char} :
    lastIndexOf l c = none ↔ c ∉ l := by
  induction l with
  | nil => simp [lastIndexOf]
  | cons a as ih =>
    simp only [lastIndexOf, List.mem_cons]
    cases h : lastIndexOf as c with
    | some i =>
      simp only []
      constructor
      · intro hc; exact absurd hc (by simp)
      · intro hc
        exact absurd (ih.mpr (fun hm => hc (Or.inr hm))) (by simp [h])
    | none =>
      have has : c ∉ as := ih.mp h
      by_cases hac : a = c
      · simp [hac]
      · simp only [if_neg hac]
        constructor
        · rintro _ (h1 | h1)
          · exact hac h1.symm
          · exact has h1
        · intro _
          trivial

theorem lastIndexOf_spec {l : List Char} {c : Char} {i : Nat}
    (h : lastIndexOf l c = some i) :
    ∃ pre suf, l = pre ++ c :: suf ∧ pre.length = i ∧ c ∉ suf := by
  induction l generalizing i with
  | nil => simp [lastIndexOf] at h
  | cons a as ih =>
    simp only [lastIndexOf] at h
    cases hh : lastIndexOf as c with
    | some j =>
      rw [hh] at h
      simp only [Option.some_inj] at h
      obtain ⟨pre, suf, he, hl, hns⟩ := ih hh
      refine ⟨a :: pre, suf, by rw [he, List.cons_append], ?_, hns⟩
      simp [hl, ← h]
    | none =>
      rw [hh] at h
      by_cases hac : a = c
      · rw [if_pos hac] at h
        simp only [Option.some_inj] at h
        exact ⟨[], as, by rw [hac]; rfl, by simp [← h], lastIndexOf_eq_none.mp hh⟩
      · rw [if_neg hac] at h
        exact absurd h (by simp)

theorem digitChar_isDigit {n : Nat} (h : n < 10) :
    (Nat.digitChar n).isDigit = true := by
  interval_cases n <;> decide

theorem toDigitsCore_isDigit (fuel : Nat) :
    ∀ (n : Nat) (acc : List Char), (∀ c ∈ acc, c.isDigit = true) →
      ∀ c ∈ Nat.toDigitsCore 10 fuel n acc, c.isDigit = true := by
  induction fuel with
  | zero =>
    intro n acc hacc c hc
    exact hacc c hc
  | succ f ih =>
    intro n acc hacc c hc
    simp only [Nat.toDigitsCore] at hc
    have hd : ∀ x ∈ Nat.digitChar (n % 10) :: acc, x.isDigit = true := by
      intro x hx
      rcases List.mem_cons.mp hx with h1 | h1
      · rw [h1]
        exact digitChar_isDigit (Nat.mod_lt _ (by omega))
      · exact hacc x h1
    by_cases h0 : n / 10 = 0
    · rw [if_pos h0] at hc
      exact hd c hc
    · rw [if_neg h0] at hc
      exact ih (n / 10) (Nat.digitChar (n % 10) :: acc) hd c hc

theorem repr_isDigit (n : Nat) : ∀ c ∈ (Nat.repr n).data, c.isDigit = true := by
  intro c hc
  have he : (Nat.repr n).data = Nat.toDigits 10 n := rfl
  rw [he, Nat.toDigits] at hc
  exact toDigitsCore_isDigit (n + 1) n [] (by simp) c hc

theorem repr_ne_of_dash (n : Nat) {s : String} (h : '-' ∈ s.data) :
    Nat.repr n ≠ s := by
  intro he
  have hd := repr_isDigit n '-' (by rw [he]; exact h)
  exact absurd hd (by decide)

theorem append_k_ne (s : String) {t : String}
    (h : t.data.getLast? = some 'a') : s ++ "k" ≠ t := by
  intro he
  have h2 : (s ++ "k").data = s.data ++ ['k'] := by
    rw [String.data_append]
  have h3 : (s ++ "k").data.getLast? = some 'k' := by
    rw [h2]
    exact List.getLast?_concat _
  rw [he, h] at h3
  exact absurd h3 (by decide)

theorem inName_ne (pre rnd : String) {t : String}
    (hp : pre.data.head? = some 'i') (h : t.data.head? = some '-') :
    pre ++ rnd ≠ t := by
  intro he
  have h2 : (pre ++ rnd).data.head? = some 'i' := by
    rw [String.data_append]
    cases hd : pre.data with
    | nil => rw [hd] at hp; exact absurd hp (by simp)
    | cons a as =>
      rw [hd] at hp
      simp only [List.head?_cons, Option.some_inj] at hp
      simp [hp]
  rw [he, h] at h2
  exact absurd h2 (by decide)

/-- C1 (confirmed): failure isolation in `convertAll`.  For a batch run over
the selected snapshot in which exactly the `k`-th selected item's conversion
throws (with message `msg`) and every other selected item's conversion
succeeds, the final state gives every selected item other than `k` status
`done`, gives item `k` status `error` with the thrown message recorded, and
the published progress trace ends at 100. -/
theorem C1_failure_isolation (eng : Engine) (items : List QItem) (k : Nat)
    (msg : String)
    (hnd : (items.map QItem.id).Nodup)
    (hk : k < (items.filter (fun i => i.selected)).length)
    (hfail : (processed eng ((items.filter (fun i => i.selected)).get ⟨k, hk⟩)).status =
      ItemStatus.error)
    (hmsg : (processed eng ((items.filter (fun i => i.selected)).get ⟨k, hk⟩)).error =
      some msg)
    (hok : ∀ j (hj : j < (items.filter (fun i => i.selected)).length), j ≠ k →
      (processed eng ((items.filter (fun i => i.selected)).get ⟨j, hj⟩)).status =
        ItemStatus.done) :
    (∀ it ∈ (convertAll eng items).1, it.selected = true →
      (it.id = ((items.filter (fun i => i.selected)).get ⟨k, hk⟩).id →
        it.status = ItemStatus.error ∧ it.error = some msg) ∧
      (it.id ≠ ((items.filter (fun i => i.selected)).get ⟨k, hk⟩).id →
        it.status = ItemStatus.done)) ∧
    (convertAll eng items).2.getLast? = some 100 := by
  have hsubnd : ((items.filter (fun i => i.selected)).map QItem.id).Nodup :=
    ((List.filter_sublist items).map QItem.id).nodup hnd
  constructor
  · intro it hit hsel
    rw [convertAll_fst eng items hnd] at hit
    obtain ⟨src, hsrc, hsrceq⟩ := List.mem_map.mp hit
    by_cases hs : src.selected = true
    · rw [if_pos hs] at hsrceq
      subst hsrceq
      have hsrcmem : src ∈ items.filter (fun i => i.selected) :=
        List.mem_filter.mpr ⟨hsrc, hs⟩
      constructor
      · intro hid
        rw [processed_id] at hid
        have hse : src = (items.filter (fun i => i.selected)).get ⟨k, hk⟩ :=
          List.inj_on_of_nodup_map hsubnd hsrcmem (List.get_mem _ _ _) hid
        rw [hse]
        exact ⟨hfail, hmsg⟩
      · intro hid
        rw [processed_id] at hid
        obtain ⟨⟨j, hj⟩, hjeq⟩ := List.mem_iff_get.mp hsrcmem
        have hjk : j ≠ k := by
          intro hc
          apply hid
          subst hc
          rw [← hjeq]
        rw [← hjeq]
        exact hok j hj hjk
    · rw [if_neg hs] at hsrceq
      subst hsrceq
      exact absurd hsel hs
  · have hex : ∃ m, (items.filter (fun i => i.selected)).length = m + 1 :=
      ⟨(items.filter (fun i => i.selected)).length - 1, by omega⟩
    obtain ⟨m, hm⟩ := hex
    rw [convertAll_snd eng items, hm, List.range_succ, List.map_append,
      List.map_cons, List.map_nil, ← List.cons_append, List.getLast?_concat,
      jsRoundPct_total (by omega)]

/-- C1 witness: a concrete two-item batch where the second item's image
encode throws `"boom"`: the final statuses are `[done, error]` and the
progress trace ends at 100. -/
theorem C1_failure_isolation_witness :
    (convertAll cexEngine [witImageItem, witBadItem]).1.map QItem.status =
      [ItemStatus.done, ItemStatus.error] ∧
    (convertAll cexEngine [witImageItem, witBadItem]).2.getLast? = some 100 := by
  have h := C1_failure_isolation cexEngine [witImageItem, witBadItem] 1 "boom"
    (by decide) (by decide) (by decide) (by decide) (by decide)
  exact ⟨by decide, h.2⟩

/-- C2 (confirmed): progress accounting of `convertAll`.  The published
progress trace is exactly `0` followed, for each `j`-th completed item of the
`n`-item selected snapshot (0-based), by `round((j+1)/n × 100)` — the items
are completed one at a time in snapshot order — and the trace is monotonically
non-decreasing. -/
theorem C2_progress_accounting (eng : Engine) (items : List QItem) :
    ((convertAll eng items).2 =
      0 :: (List.range (items.filter (fun i => i.selected)).length).map
        (fun j => (round ((((j + 1 : ℕ) : ℚ) /
          ((items.filter (fun i => i.selected)).length : ℚ)) * 100)).toNat)) ∧
    List.Pairwise (fun a b => a ≤ b) (convertAll eng items).2 := by
  constructor
  · rw [convertAll_snd eng items]
    congr 1
    apply List.map_congr_left
    intro j hj
    have hjlt : j < (items.filter (fun i => i.selected)).length :=
      List.mem_range.mp hj
    have ht : (items.filter (fun i => i.selected)).length ≠ 0 := by omega
    rw [← jsRoundPct_eq_round (j + 1) ht, Int.toNat_natCast]
  · rw [convertAll_snd eng items]
    refine List.pairwise_cons.mpr ⟨fun b _ => Nat.zero_le b, ?_⟩
    refine List.Pairwise.map _ (fun a b hab => ?_) (List.pairwise_lt_range _)
    exact jsRoundPct_mono _ (by omega)

/-- C3 counterexample: `done` is not terminal.  `cexDoneItem` is a selected
item whose status is `done`; running `convertAll` again over the same item
set re-processes it, and with a now-failing audio engine its status leaves
`done` and becomes `error`. -/
theorem C3_counterexample :
    cexDoneItem.status = ItemStatus.done ∧
      (convertAll cexEngine [cexDoneItem]).1.map QItem.status =
        [ItemStatus.error] := by
  exact ⟨rfl, by decide⟩

/-- C3 amended: `done`/`error` are not terminal across runs.  `convertAll`
re-processes every selected item regardless of its current status (the item's
post-run state is the fresh re-conversion result), and leaves every
unselected item — whatever its status — completely unchanged.  Only items
outside the selection are protected from further transitions. -/
theorem C3_amended (eng : Engine) (items : List QItem)
    (hnd : (items.map QItem.id).Nodup) :
    (∀ it ∈ items, it.selected = true →
      processed eng it ∈ (convertAll eng items).1) ∧
    (∀ it ∈ items, it.selected = false → it ∈ (convertAll eng items).1) := by
  rw [convertAll_fst eng items hnd]
  constructor
  · intro it hit hsel
    refine List.mem_map.mpr ⟨it, hit, ?_⟩
    rw [if_pos hsel]
  · intro it hit hsel
    refine List.mem_map.mpr ⟨it, hit, ?_⟩
    rw [if_neg (by simp [hsel])]

/-- C3 amended witness: the already-`done` selected item is re-processed by
the second run. -/
theorem C3_amended_witness :
    processed cexEngine cexDoneItem ∈ (convertAll cexEngine [cexDoneItem]).1 :=
  (C3_amended cexEngine [cexDoneItem] (by decide)).1 cexDoneItem (by decide) rfl

theorem addFilesGo_mem {mkId : Nat → Nat} {files : List MFile} {it : QItem} :
    ∀ {idx : Nat}, it ∈ addFilesGo mkId idx files →
      ∃ j f, f ∈ files ∧ it = mkItem j f := by
  induction files with
  | nil =>
    intro idx h
    simp [addFilesGo] at h
  | cons f fs ih =>
    intro idx h
    rcases List.mem_cons.mp h with h1 | h1
    · exact ⟨mkId idx, f, List.mem_cons_self _ _, h1⟩
    · obtain ⟨j, g, hg, he⟩ := ih h1
      exact ⟨j, g, List.mem_cons_of_mem _ hg, he⟩

/-- C4 counterexample: `addFiles` on a file the classifier cannot place
(`data.xyz` with empty declared type) enqueues an item whose target is the
`"image/webp"` fallback, which is not a member of the (empty) valid-target
list computed for the file. -/
theorem C4_counterexample :
    ∃ it ∈ addFiles (fun n => n) [{ name := "data.xyz", type := "" }],
      it.target ∉ inferTargets it.file.type it.file.name := by
  decide

/-- C4 amended: for every enqueued item, when the classifier recognizes the
file (non-empty valid-target list) the seeded target is a member of that
list (its first element); when the classifier returns the empty list
(unsupported file) the seeded target is the hard-coded `"image/webp"`
fallback, which lies outside the valid-target list. -/
theorem C4_amended (mkId : Nat → Nat) (files : List MFile) :
    ∀ it ∈ addFiles mkId files,
      (inferTargets it.file.type it.file.name ≠ [] →
        it.target ∈ inferTargets it.file.type it.file.name) ∧
      (inferTargets it.file.type it.file.name = [] →
        it.target = "image/webp") := by
  intro it hit
  obtain ⟨j, f, _, he⟩ := addFilesGo_mem hit
  subst he
  constructor
  · intro hne
    have hne' : inferTargets f.type f.name ≠ [] := hne
    show (inferTargets f.type f.name).headD "image/webp" ∈ inferTargets f.type f.name
    cases hl : inferTargets f.type f.name with
    | nil => exact absurd hl hne'
    | cons a as => exact List.mem_cons_self _ _
  · intro hnil
    have hnil' : inferTargets f.type f.name = [] := hnil
    show (inferTargets f.type f.name).headD "image/webp" = "image/webp"
    rw [hnil']
    rfl

/-- C4 amended witness: a recognized png file is enqueued with its first
valid target. -/
theorem C4_amended_witness :
    (mkItem 0 { name := "p.png", type := "image/png" }).target ∈
      inferTargets "image/png" "p.png" :=
  (C4_amended (fun n => n) [{ name := "p.png", type := "image/png" }]
    (mkItem 0 { name := "p.png", type := "image/png" }) (by decide)).1 (by decide)

theorem recSet_fresh (m : List (String × List Nat)) (k : String) (v : List Nat)
    (h : k ∉ m.map Prod.fst) : recSet m k v = m ++ [(k, v)] := by
  unfold recSet
  rw [if_neg h]

theorem foldl_recSet_fresh (l : List (String × List Nat)) :
    ∀ m : List (String × List Nat), (l.map Prod.fst).Nodup →
      (∀ k ∈ l.map Prod.fst, k ∉ m.map Prod.fst) →
      l.foldl (fun acc p => recSet acc p.1 p.2) m = m ++ l := by
  induction l with
  | nil =>
    intro m _ _
    simp
  | cons p rest ih =>
    intro m hnd hdisj
    simp only [List.map_cons, List.nodup_cons] at hnd
    obtain ⟨hp, hrest⟩ := hnd
    simp only [List.foldl_cons]
    rw [recSet_fresh m p.1 p.2 (hdisj p.1 (List.mem_cons_self _ _))]
    rw [ih (m ++ [(p.1, p.2)]) hrest ?_]
    · simp
    · intro k hk
      rw [List.map_append]
      simp only [List.mem_append]
      rintro (h1 | h1)
      · exact hdisj k (List.mem_cons_of_mem _ hk) h1
      · simp only [List.map_cons, List.map_nil, List.mem_singleton] at h1
        rw [h1] at hk
        exact hp hk

/-- C5 counterexample: two distinct selected, converted items (`a.jpg` and
`a.png`, both targeting WEBP) get the same archive entry name `a.webp`, and
the second silently overwrites the first in the archive record: only one
entry, holding the second item's bytes, survives. -/
theorem C5_counterexample :
    cexItemA ≠ cexItemB ∧ entryName cexItemA = entryName cexItemB ∧
      zipEntries (fun _ => 0) (fun _ _ => []) [cexItemA, cexItemB] =
        [("a.webp", [2])] := by
  decide

/-- C5 amended: archive entry names are deterministic but not collision-free
in general; whenever the names of all assignments of a run are pairwise
distinct, every stored output of a selected `done` item does appear in the
archive under its computed entry name. -/
theorem C5_amended (pg : MFile → Nat) (pb : MFile → Nat → List Nat)
    (items : List QItem)
    (hnames : ((assignments pg pb items).map Prod.fst).Nodup) :
    ∀ it ∈ items, it.selected = true → it.status = ItemStatus.done →
      ∀ b, it.outBlob = some b →
        (entryName it, b) ∈ zipEntries pg pb items := by
  intro it hmem hsel hst b hb
  have h1 : (entryName it, b) ∈ assignments pg pb items := by
    refine List.mem_flatMap.mpr ⟨it, hmem, ?_⟩
    simp only [itemEntries, if_pos hsel]
    rw [if_pos (show it.status = ItemStatus.done ∧ it.outBlob.isSome = true from
      ⟨hst, by rw [hb]; rfl⟩)]
    apply List.mem_append_left
    rw [hb]
    exact List.mem_singleton.mpr rfl
  unfold zipEntries
  rw [foldl_recSet_fresh (assignments pg pb items) [] hnames (by simp)]
  simpa using h1

/-- C5 amended witness: with two non-colliding items (`a.jpg` and `b.png`)
the first item's output is present in the archive. -/
theorem C5_amended_witness :
    (entryName cexItemA, [1]) ∈
      zipEntries (fun _ => 0) (fun _ _ => []) [cexItemA, witZipItemB] :=
  C5_amended (fun _ => 0) (fun _ _ => []) [cexItemA, witZipItemB] (by decide)
    cexItemA (by decide) rfl rfl [1] rfl

/-- C6 counterexample: a file whose name carries an image extension but whose
declared media type is empty is NOT classified as an image — the classifier
tests only the declared type for images, so `photo.png` with no declared type
gets the empty (unsupported) target list instead of the image target list. -/
theorem C6_counterexample :
    inferTargets "" "photo.png" ≠ IMAGE_TARGETS ∧
      inferTargets "" "photo.png" = [] := by
  decide

/-- C6 amended: the classifier's image rule fires on the declared media type
only (a file whose extension alone matches the image set is not classified as
an image), and its HEIC rule fires on the filename extension only.  The
precedence is: `.heic`/`.heif` name first, then `image/*` declared type, then
the audio rule (declared `audio/*` type or audio extension), then the video
rule, then PDF, else unsupported with the empty target list. -/
theorem C6_amended (type name : String) :
    (heicName (strToLower name) = true →
      inferTargets type name = ["image/jpeg"]) ∧
    (heicName (strToLower name) = false → strStartsWith type "image/" = true →
      inferTargets type name = ["image/jpeg", "image/png", "image/webp"]) ∧
    (heicName (strToLower name) = false → strStartsWith type "image/" = false →
      (strStartsWith type "audio/" || hasAudioExt (strToLower name)) = true →
      inferTargets type name = AUDIO_TARGETS) ∧
    (heicName (strToLower name) = false → strStartsWith type "image/" = false →
      (strStartsWith type "audio/" || hasAudioExt (strToLower name)) = false →
      (strStartsWith type "video/" || hasVideoExt (strToLower name)) = true →
      inferTargets type name = VIDEO_TARGETS) ∧
    (heicName (strToLower name) = false → strStartsWith type "image/" = false →
      (strStartsWith type "audio/" || hasAudioExt (strToLower name)) = false →
      (strStartsWith type "video/" || hasVideoExt (strToLower name)) = false →
      (type = "application/pdf" ∨ strEndsWith (strToLower name) ".pdf" = true) →
      inferTargets type name = ["application/pdf"]) ∧
    (heicName (strToLower name) = false → strStartsWith type "image/" = false →
      (strStartsWith type "audio/" || hasAudioExt (strToLower name)) = false →
      (strStartsWith type "video/" || hasVideoExt (strToLower name)) = false →
      ¬(type = "application/pdf" ∨ strEndsWith (strToLower name) ".pdf" = true) →
      inferTargets type name = []) := by
  refine ⟨?_, ?_, ?_, ?_, ?_, ?_⟩
  · intro h1
    simp [inferTargets, h1]
  · intro h1 h2
    simp [inferTargets, h1, h2, IMAGE_TARGETS]
  · intro h1 h2 h3
    simp only [Bool.or_eq_true] at h3
    simp [inferTargets, h1, h2, h3]
  · intro h1 h2 h3 h4
    simp only [Bool.or_eq_false_iff] at h3
    simp only [Bool.or_eq_true] at h4
    simp [inferTargets, h1, h2, h3.1, h3.2, h4]
  · intro h1 h2 h3 h4 h5
    simp only [Bool.or_eq_false_iff] at h3 h4
    simp [inferTargets, h1, h2, h3.1, h3.2, h4.1, h4.2, h5]
  · intro h1 h2 h3 h4 h5
    simp only [Bool.or_eq_false_iff] at h3 h4
    push_neg at h5
    simp [inferTargets, h1, h2, h3.1, h3.2, h4.1, h4.2, h5.1, h5.2]

/-- C6 amended witness: one concrete instance of each branch of the amended
classifier description. -/
theorem C6_amended_witness :
    inferTargets "image/png" "p.heic" = ["image/jpeg"] ∧
    inferTargets "image/png" "p.png" = ["image/jpeg", "image/png", "image/webp"] ∧
    inferTargets "audio/mpeg" "x" = AUDIO_TARGETS ∧
    inferTargets "video/mp4" "x" = VIDEO_TARGETS ∧
    inferTargets "application/pdf" "x" = ["application/pdf"] ∧
    inferTargets "" "x" = [] :=
  ⟨(C6_amended "image/png" "p.heic").1 (by decide),
   (C6_amended "image/png" "p.png").2.1 (by decide) (by decide),
   (C6_amended "audio/mpeg" "x").2.2.1 (by decide) (by decide) (by decide),
   (C6_amended "video/mp4" "x").2.2.2.1 (by decide) (by decide) (by decide)
     (by decide),
   (C6_amended "application/pdf" "x").2.2.2.2.1 (by decide) (by decide)
     (by decide) (by decide) (Or.inl rfl),
   (C6_amended "" "x").2.2.2.2.2 (by decide) (by decide) (by decide) (by decide)
     (by decide)⟩

/-- C7 counterexample: a selected split-action PDF item that also carries a
stored output blob with status `done` (reachable by converting in keep mode
and then switching the action to split) contributes a whole-document entry
`doc.pdf` in addition to its three page entries — the archive has four
entries for it, not three. -/
theorem C7_counterexample :
    ("doc.pdf", [9]) ∈ zipEntries (fun _ => 3) (fun _ i => [i]) [cexSplitDoneItem] ∧
      (zipEntries (fun _ => 3) (fun _ i => [i]) [cexSplitDoneItem]).length = 4 := by
  decide

/-- C7 amended: a selected document item with the split-pages action whose
source has `P` pages contributes exactly the `P` page entries — named by
replacing the extension with `-page-1.pdf` … `-page-P.pdf` — and no
whole-document entry, provided it does not also hold a stored output blob
with status `done` (which only a prior keep-mode conversion can leave
behind; in that case a whole-document entry is additionally emitted). -/
theorem C7_amended (pg : MFile → Nat) (pb : MFile → Nat → List Nat) (it : QItem)
    (hsel : it.selected = true) (hpdf : isPDF it.file = true)
    (hact : it.pdf.action = PdfAction.split)
    (hno : it.status ≠ ItemStatus.done ∨ it.outBlob = none) :
    itemEntries pg pb it =
      (List.range (pg it.file)).map
        (fun i => (replaceExtS it.file.name ("-page-" ++ Nat.repr (i + 1) ++ ".pdf"),
          pb it.file i)) := by
  have hcond : ¬(it.status = ItemStatus.done ∧ it.outBlob.isSome = true) := by
    rintro ⟨h1, h2⟩
    rcases hno with h3 | h3
    · exact h3 h1
    · rw [h3] at h2
      exact absurd h2 (by decide)
  simp only [itemEntries, if_pos hsel, if_neg hcond,
    if_pos (show isPDF it.file = true ∧ it.pdf.action = PdfAction.split from
      ⟨hpdf, hact⟩), List.nil_append, pageEntryName]

/-- C7 amended witness: a pending split PDF with two pages contributes
exactly its two page entries. -/
theorem C7_amended_witness :
    itemEntries (fun _ => 2) (fun _ i => [i]) witSplitPendingItem =
      [("d-page-1.pdf", [0]), ("d-page-2.pdf", [1])] := by
  rw [C7_amended (fun _ => 2) (fun _ i => [i]) witSplitPendingItem rfl (by decide)
    rfl (Or.inl (by decide))]
  decide

/-- C10 (confirmed): the archive assembler emits the per-page entries of a
selected split-action PDF item based solely on selection and the action flag,
never consulting the item's status: with any non-`done` status (in particular
`pending` or `error`, i.e. never successfully converted) the item still
contributes exactly its full list of page entries. -/
theorem C10_split_entries_ignore_status (pg : MFile → Nat)
    (pb : MFile → Nat → List Nat) (it : QItem)
    (hsel : it.selected = true) (hpdf : isPDF it.file = true)
    (hact : it.pdf.action = PdfAction.split) :
    ∀ s : ItemStatus, s ≠ ItemStatus.done →
      itemEntries pg pb { it with status := s } =
        (List.range (pg it.file)).map
          (fun i => (pageEntryName it.file i, pb it.file i)) := by
  intro s hs
  have hcond : ¬(({ it with status := s } : QItem).status = ItemStatus.done ∧
      ({ it with status := s } : QItem).outBlob.isSome = true) := by
    rintro ⟨h1, _⟩
    exact hs h1
  simp only [itemEntries]
  rw [if_pos (show ({ it with status := s } : QItem).selected = true from hsel),
    if_neg hcond,
    if_pos (show isPDF ({ it with status := s } : QItem).file = true ∧
      ({ it with status := s } : QItem).pdf.action = PdfAction.split from
      ⟨hpdf, hact⟩), List.nil_append]

/-- C10 witness: an erroring split PDF with two pages still contributes both
page entries. -/
theorem C10_witness :
    itemEntries (fun _ => 2) (fun _ i => [i])
        { witSplitPendingItem with status := ItemStatus.error } =
      [("d-page-1.pdf", [0]), ("d-page-2.pdf", [1])] := by
  rw [C10_split_entries_ignore_status (fun _ => 2) (fun _ i => [i])
    witSplitPendingItem rfl (by decide) rfl ItemStatus.error (by decide)]
  decide

/-- C8 (confirmed): audio flag selection in `convertAudio`'s argument
builder.  Whenever an argument vector is produced, the sample-rate flag
`-ar` with the rate value and the channel flag `-ac` with the channel count
are always in it; for MP3 with mode VBR the vector carries the
variable-quality flag `-q:a` and no bitrate flag `-b:a`; for WAV the vector
carries the fixed PCM codec `pcm_s16le` and neither `-b:a` nor `-q:a`; any
target outside the five supported audio targets yields the thrown
`"Unsupported audio target"` error. -/
theorem C8_audio_flags (rnd target : String) (opts : AudioOpts) :
    (∀ out args, audioArgs ("in_" ++ rnd) target opts = Except.ok (out, args) →
      "-ar" ∈ args ∧ Nat.repr opts.rate ∈ args ∧ "-ac" ∈ args ∧
        Nat.repr opts.ch ∈ args) ∧
    (target = "audio/mpeg" → opts.mode = AudioMode.VBR →
      ∃ args, audioArgs ("in_" ++ rnd) target opts = Except.ok ("out.mp3", args) ∧
        "-q:a" ∈ args ∧ "-b:a" ∉ args) ∧
    (target = "audio/wav" →
      ∃ args, audioArgs ("in_" ++ rnd) target opts = Except.ok ("out.wav", args) ∧
        "pcm_s16le" ∈ args ∧ "-b:a" ∉ args ∧ "-q:a" ∉ args) ∧
    (target ∉ AUDIO_TARGETS →
      audioArgs ("in_" ++ rnd) target opts =
        Except.error "Unsupported audio target") := by
  refine ⟨?_, ?_, ?_, ?_⟩
  · intro out args h
    simp only [audioArgs] at h
    by_cases h1 : target = "audio/mpeg"
    · rw [if_pos h1] at h
      by_cases hm : opts.mode = AudioMode.VBR
      · rw [if_pos hm] at h
        simp only [Except.ok.injEq, Prod.mk.injEq] at h
        obtain ⟨-, ha⟩ := h
        subst ha
        exact ⟨by simp, by simp, by simp, by simp⟩
      · rw [if_neg hm] at h
        simp only [Except.ok.injEq, Prod.mk.injEq] at h
        obtain ⟨-, ha⟩ := h
        subst ha
        exact ⟨by simp, by simp, by simp, by simp⟩
    · rw [if_neg h1] at h
      by_cases h2 : target = "audio/aac"
      · rw [if_pos h2] at h
        simp only [Except.ok.injEq, Prod.mk.injEq] at h
        obtain ⟨-, ha⟩ := h
        subst ha
        exact ⟨by simp, by simp, by simp, by simp⟩
      · rw [if_neg h2] at h
        by_cases h3 : target = "audio/ogg" ∨ target = "audio/opus"
        · rw [if_pos h3] at h
          simp only [Except.ok.injEq, Prod.mk.injEq] at h
          obtain ⟨-, ha⟩ := h
          subst ha
          exact ⟨by simp, by simp, by simp, by simp⟩
        · rw [if_neg h3] at h
          by_cases h4 : target = "audio/wav"
          · rw [if_pos h4] at h
            simp only [Except.ok.injEq, Prod.mk.injEq] at h
            obtain ⟨-, ha⟩ := h
            subst ha
            exact ⟨by simp, by simp, by simp, by simp⟩
          · rw [if_neg h4] at h
            exact absurd h (by simp)
  · intro h1 hm
    subst h1
    refine ⟨["-i", "in_" ++ rnd, "-ar", Nat.repr opts.rate, "-ac",
      Nat.repr opts.ch, "-c:a", "libmp3lame", "-q:a", Nat.repr opts.vbrq,
      "out.mp3"], ?_, by simp, ?_⟩
    · simp [audioArgs, hm]
    · intro hmem
      simp only [List.mem_cons, List.not_mem_nil, or_false] at hmem
      rcases hmem with h | h | h | h | h | h | h | h | h | h | h
      · exact absurd h (by decide)
      · exact inName_ne "in_" rnd (by decide) (by decide) h.symm
      · exact absurd h (by decide)
      · exact repr_ne_of_dash opts.rate (by decide) h.symm
      · exact absurd h (by decide)
      · exact repr_ne_of_dash opts.ch (by decide) h.symm
      · exact absurd h (by decide)
      · exact absurd h (by decide)
      · exact absurd h (by decide)
      · exact repr_ne_of_dash opts.vbrq (by decide) h.symm
      · exact absurd h (by decide)
  · intro h1
    subst h1
    refine ⟨["-i", "in_" ++ rnd, "-ar", Nat.repr opts.rate, "-ac",
      Nat.repr opts.ch, "-c:a", "pcm_s16le", "out.wav"], ?_, by simp, ?_, ?_⟩
    · simp [audioArgs]
    · intro hmem
      simp only [List.mem_cons, List.not_mem_nil, or_false] at hmem
      rcases hmem with h | h | h | h | h | h | h | h | h
      · exact absurd h (by decide)
      · exact inName_ne "in_" rnd (by decide) (by decide) h.symm
      · exact absurd h (by decide)
      · exact repr_ne_of_dash opts.rate (by decide) h.symm
      · exact absurd h (by decide)
      · exact repr_ne_of_dash opts.ch (by decide) h.symm
      · exact absurd h (by decide)
      · exact absurd h (by decide)
      · exact absurd h (by decide)
    · intro hmem
      simp only [List.mem_cons, List.not_mem_nil, or_false] at hmem
      rcases hmem with h | h | h | h | h | h | h | h | h
      · exact absurd h (by decide)
      · exact inName_ne "in_" rnd (by decide) (by decide) h.symm
      · exact absurd h (by decide)
      · exact repr_ne_of_dash opts.rate (by decide) h.symm
      · exact absurd h (by decide)
      · exact repr_ne_of_dash opts.ch (by decide) h.symm
      · exact absurd h (by decide)
      · exact absurd h (by decide)
      · exact absurd h (by decide)
  · intro hns
    simp only [AUDIO_TARGETS, List.mem_cons, List.not_mem_nil, or_false] at hns
    push_neg at hns
    obtain ⟨n1, n2, n3, n4, n5⟩ := hns
    simp [audioArgs, n1, n2, n3, n4, n5]

/-- C8 witness: concrete flag vectors for the MP3-VBR branch, the WAV branch,
the always-passed rate/channels, and the unsupported-target error. -/
theorem C8_audio_flags_witness :
    (∃ args, audioArgs ("in_" ++ "x") "audio/mpeg" smallVbrOpts =
      Except.ok ("out.mp3", args) ∧ "-q:a" ∈ args ∧ "-b:a" ∉ args) ∧
    (∃ args, audioArgs ("in_" ++ "x") "audio/wav" smallVbrOpts =
      Except.ok ("out.wav", args) ∧ "pcm_s16le" ∈ args ∧ "-b:a" ∉ args ∧
        "-q:a" ∉ args) ∧
    ("-ar" ∈ ["-i", "in_" ++ "x", "-ar", Nat.repr smallVbrOpts.rate, "-ac",
      Nat.repr smallVbrOpts.ch, "-c:a", "pcm_s16le", "out.wav"] ∧
      Nat.repr smallVbrOpts.rate ∈ ["-i", "in_" ++ "x", "-ar",
        Nat.repr smallVbrOpts.rate, "-ac", Nat.repr smallVbrOpts.ch, "-c:a",
        "pcm_s16le", "out.wav"] ∧
      "-ac" ∈ ["-i", "in_" ++ "x", "-ar", Nat.repr smallVbrOpts.rate, "-ac",
        Nat.repr smallVbrOpts.ch, "-c:a", "pcm_s16le", "out.wav"] ∧
      Nat.repr smallVbrOpts.ch ∈ ["-i", "in_" ++ "x", "-ar",
        Nat.repr smallVbrOpts.rate, "-ac", Nat.repr smallVbrOpts.ch, "-c:a",
        "pcm_s16le", "out.wav"]) ∧
    audioArgs ("in_" ++ "x") "text/plain" smallVbrOpts =
      Except.error "Unsupported audio target" :=
  ⟨(C8_audio_flags "x" "audio/mpeg" smallVbrOpts).2.1 rfl rfl,
   (C8_audio_flags "x" "audio/wav" smallVbrOpts).2.2.1 rfl,
   (C8_audio_flags "x" "audio/wav" smallVbrOpts).1 "out.wav"
     ["-i", "in_" ++ "x", "-ar", Nat.repr smallVbrOpts.rate, "-ac",
       Nat.repr smallVbrOpts.ch, "-c:a", "pcm_s16le", "out.wav"] (by rfl),
   (C8_audio_flags "x" "text/plain" smallVbrOpts).2.2.2 (by decide)⟩

/-- C9 (confirmed): extension replacement.  For a name containing a dot,
`replaceExt` drops the segment from the last dot onward (the suffix after the
split contains no further dot) and appends the new extension; for a name
without a dot it appends the new extension; and the naming round trip
`replaceExt("a.b.heic", ".jpg") = "a.b.jpg"` holds. -/
theorem C9_replaceExt_roundtrip (name ext : List Char) :
    (('.' : Char) ∈ name →
      ∃ pre suf, name = pre ++ '.' :: suf ∧ ('.' : Char) ∉ suf ∧
        replaceExt name ext = pre ++ ext) ∧
    (('.' : Char) ∉ name → replaceExt name ext = name ++ ext) ∧
    replaceExtS "a.b.heic" ".jpg" = "a.b.jpg" := by
  refine ⟨?_, ?_, by decide⟩
  · intro hmem
    cases hli : lastIndexOf name '.' with
    | none => exact absurd hmem (lastIndexOf_eq_none.mp hli)
    | some i =>
      obtain ⟨pre, suf, he, hl, hns⟩ := lastIndexOf_spec hli
      refine ⟨pre, suf, he, hns, ?_⟩
      unfold replaceExt
      rw [hli]
      show List.take i name ++ ext = pre ++ ext
      congr 1
      rw [he, ← hl, List.take_append_eq_append_take]
      simp
  · intro hnm
    unfold replaceExt
    rw [lastIndexOf_eq_none.mpr hnm]

/-- C9 witness: the dot and no-dot cases at concrete names. -/
theorem C9_replaceExt_roundtrip_witness :
    (∃ pre suf, "x.txt".data = pre ++ '.' :: suf ∧ ('.' : Char) ∉ suf ∧
      replaceExt "x.txt".data ".jpg".data = pre ++ ".jpg".data) ∧
    replaceExt "noext".data ".jpg".data = "noext".data ++ ".jpg".data :=
  ⟨(C9_replaceExt_roundtrip "x.txt".data ".jpg".data).1 (by decide),
   (C9_replaceExt_roundtrip "noext".data ".jpg".data).2.1 (by decide)⟩
